import Mathlib

/-!
Verification of the glucose range-segmentation core of a health-diary
application.  The definitions below are shallow embeddings of the Python
functions `_glucose_zone`, `_crossing_point`, the segmentation loop of
`_glucose_traces`, `_glucose_stats` and the statistics section of
`healthkit_diabetes.py`; timestamps and glucose values are modelled as
rational numbers, and Python's `round` (half-to-even) is modelled exactly.
-/

/-- Lower bound of the target glucose range (`GLUCOSE_MIN = 4`). -/
def GLUCOSE_MIN : ℚ := 4

/-- Upper bound of the target glucose range (`GLUCOSE_MAX = 10`). -/
def GLUCOSE_MAX : ℚ := 10

/-- The three glucose zones returned by `_glucose_zone`
(the strings `"below"`, `"in_range"`, `"above"` in the source). -/
inductive Zone where
  | below
  | in_range
  | above
deriving DecidableEq

/-- Embedding of `_glucose_zone`: `below` if `v < GLUCOSE_MIN`,
`above` if `v > GLUCOSE_MAX`, otherwise `in_range`. -/
def glucose_zone (v : ℚ) : Zone :=
  if v < GLUCOSE_MIN then .below
  else if v > GLUCOSE_MAX then .above
  else .in_range

/-- Python's built-in `round` on an exact value: round half to even
(banker's rounding), returning an integer. -/
def pyRound (q : ℚ) : ℤ :=
  if q - ⌊q⌋ < 1 / 2 then ⌊q⌋
  else if 1 / 2 < q - ⌊q⌋ then ⌊q⌋ + 1
  else if ⌊q⌋ % 2 = 0 then ⌊q⌋ else ⌊q⌋ + 1

/-- The boundary chosen by `_crossing_point`:
`GLUCOSE_MIN` if `(v0 < GLUCOSE_MIN) != (v1 < GLUCOSE_MIN)`, else `GLUCOSE_MAX`. -/
def crossing_boundary (v0 v1 : ℚ) : ℚ :=
  if decide (v0 < GLUCOSE_MIN) != decide (v1 < GLUCOSE_MIN) then GLUCOSE_MIN
  else GLUCOSE_MAX

/-- The interpolation ratio of `_crossing_point`:
`(boundary - v0) / (v1 - v0)` when `v1 != v0`, else `0.5`. -/
def crossing_ratio (v0 v1 : ℚ) : ℚ :=
  if v1 ≠ v0 then (crossing_boundary v0 v1 - v0) / (v1 - v0) else 1 / 2

/-- Embedding of `_crossing_point`: the interpolated time and the boundary
value where the segment between `(t0, v0)` and `(t1, v1)` crosses the
chosen threshold. -/
def crossing_point (t0 t1 v0 v1 : ℚ) : ℚ × ℚ :=
  (t0 + (t1 - t0) * crossing_ratio v0 v1, crossing_boundary v0 v1)

/-- One colored polyline segment produced by the segmentation loop of
`_glucose_traces`: the point list `(seg_x, seg_y)` zipped, plus `seg_ok`. -/
structure Segment where
  pts : List (ℚ × ℚ)
  zone : Zone
deriving DecidableEq

/-- The segmentation loop of `_glucose_traces` (lines 90–106): `prev` is the
previous original reading, `seg_pts`/`seg_ok` the open segment, and the
remaining readings are consumed one by one.  On a zone change the crossing
point closes the open segment and opens the next one. -/
def build_segments_loop (prev : ℚ × ℚ) (seg_pts : List (ℚ × ℚ)) (seg_ok : Zone) :
    List (ℚ × ℚ) → List Segment
  | [] => [⟨seg_pts, seg_ok⟩]
  | p :: rest =>
    if glucose_zone p.2 = seg_ok then
      build_segments_loop p (seg_pts ++ [p]) seg_ok rest
    else
      let c := crossing_point prev.1 p.1 prev.2 p.2
      ⟨seg_pts ++ [c], seg_ok⟩ :: build_segments_loop p [c, p] (glucose_zone p.2) rest

/-- Embedding of the segment construction of `_glucose_traces` (lines 79–106):
empty input yields no segments, otherwise the loop starts with a one-point
open segment at the first reading. -/
def build_segments : List (ℚ × ℚ) → List Segment
  | [] => []
  | r :: rest => build_segments_loop r [r] (glucose_zone r.2) rest

/-- Number of adjacent pairs of readings whose zones (per `glucose_zone`)
differ. -/
def zone_changes : List (ℚ × ℚ) → ℕ
  | p :: q :: rest =>
      (if glucose_zone p.2 = glucose_zone q.2 then 0 else 1) + zone_changes (q :: rest)
  | _ => 0

/-- Claim C5: `glucose_zone` returns `below` iff `v < GLUCOSE_MIN`, `above`
iff `v > GLUCOSE_MAX`, and `in_range` otherwise; in particular the two
threshold values themselves classify `in_range` (closed target interval). -/
theorem glucose_zone_spec :
    (∀ v : ℚ,
      (glucose_zone v = .below ↔ v < GLUCOSE_MIN) ∧
      (glucose_zone v = .above ↔ v > GLUCOSE_MAX) ∧
      (glucose_zone v = .in_range ↔ GLUCOSE_MIN ≤ v ∧ v ≤ GLUCOSE_MAX)) ∧
    glucose_zone GLUCOSE_MIN = .in_range ∧ glucose_zone GLUCOSE_MAX = .in_range := by
  refine ⟨fun v => ?_, by with_unfolding_all decide, by with_unfolding_all decide⟩
  have hlt : GLUCOSE_MIN < GLUCOSE_MAX := by with_unfolding_all decide
  unfold glucose_zone
  split_ifs with h1 h2
  · exact ⟨iff_of_true rfl h1,
      iff_of_false (by decide)
        (not_lt.mpr (h1.trans hlt).le),
      iff_of_false (by decide) (fun hc => (not_le.mpr h1) hc.1)⟩
  · exact ⟨iff_of_false (by decide) h1,
      iff_of_true rfl h2,
      iff_of_false (by decide) (fun hc => (not_le.mpr h2) hc.2)⟩
  · exact ⟨iff_of_false (by decide) h1,
      iff_of_false (by decide) h2,
      iff_of_true rfl ⟨not_lt.mp h1, not_lt.mp h2⟩⟩

/-- Claim C3: `crossing_point` picks boundary `GLUCOSE_MIN` exactly when
`(v0 < GLUCOSE_MIN)` and `(v1 < GLUCOSE_MIN)` disagree (else `GLUCOSE_MAX`),
interpolates with ratio `(boundary - v0)/(v1 - v0)` (or `1/2` when
`v1 = v0`), and returns `(t0 + (t1 - t0) * ratio, boundary)`. -/
theorem crossing_point_spec (t0 t1 v0 v1 : ℚ) :
    ((crossing_point t0 t1 v0 v1).2 =
      if ¬(v0 < GLUCOSE_MIN ↔ v1 < GLUCOSE_MIN) then GLUCOSE_MIN else GLUCOSE_MAX) ∧
    (crossing_point t0 t1 v0 v1).1 =
      t0 + (t1 - t0) *
        (if v1 ≠ v0 then ((crossing_point t0 t1 v0 v1).2 - v0) / (v1 - v0) else 1 / 2) := by
  constructor
  · show crossing_boundary v0 v1 = _
    unfold crossing_boundary
    by_cases h0 : v0 < GLUCOSE_MIN <;> by_cases h1 : v1 < GLUCOSE_MIN <;>
      simp [h0, h1]
  · rfl

/-- Claim C8: `build_segments` maps the empty reading list to the empty
segment list, and a single reading to a single one-point segment. -/
theorem build_segments_small :
    build_segments [] = [] ∧
    ∀ p : ℚ × ℚ, build_segments [p] = [⟨[p], glucose_zone p.2⟩] :=
  ⟨rfl, fun _ => rfl⟩

lemma build_segments_loop_length (rest : List (ℚ × ℚ)) :
    ∀ (prev : ℚ × ℚ) (seg_pts : List (ℚ × ℚ)),
      (build_segments_loop prev seg_pts (glucose_zone prev.2) rest).length =
        1 + zone_changes (prev :: rest) := by
  induction rest with
  | nil => intro prev seg_pts; rfl
  | cons p rest ih =>
    intro prev seg_pts
    simp only [build_segments_loop]
    by_cases hz : glucose_zone p.2 = glucose_zone prev.2
    · rw [if_pos hz, ← hz, ih p]
      rw [zone_changes, if_pos hz.symm]
      omega
    · rw [if_neg hz]
      simp only [List.length_cons, ih p]
      rw [zone_changes, if_neg (fun hc => hz hc.symm)]
      omega

/-- Claim C1: for every non-empty reading list, `build_segments` produces
exactly `1 + (number of adjacent pairs with differing zones)` segments; in
particular no segment break (hence no crossing point) is introduced between
consecutive readings of the same zone. -/
theorem segment_count (readings : List (ℚ × ℚ)) (h : readings ≠ []) :
    (build_segments readings).length = 1 + zone_changes readings := by
  match readings with
  | [] => exact absurd rfl h
  | r :: rest => exact build_segments_loop_length rest r [r]

/-- Witness for C1: the spec's four-point example has three zone changes and
four segments. -/
theorem segment_count_witness :
    ([((0 : ℚ), (3 : ℚ)), (1, 5), (2, 12), (3, 7)] ≠ []) ∧
    (build_segments [((0 : ℚ), (3 : ℚ)), (1, 5), (2, 12), (3, 7)]).length =
      1 + zone_changes [((0 : ℚ), (3 : ℚ)), (1, 5), (2, 12), (3, 7)] :=
  ⟨by with_unfolding_all decide,
    segment_count [((0 : ℚ), (3 : ℚ)), (1, 5), (2, 12), (3, 7)]
      (by with_unfolding_all decide)⟩

/-- The point lists of a segment list with the first point of every segment
after the first dropped (each such point duplicates the last point of the
previous segment). -/
def drop_shared (segs : List Segment) : List (ℚ × ℚ) :=
  (segs.map fun s => s.pts.tail).flatten

/-- Concatenation of all segments' point lists with the shared boundary
points deduplicated: the first segment in full, every later segment without
its first point. -/
def join_segments : List Segment → List (ℚ × ℚ)
  | [] => []
  | s :: rest => s.pts ++ drop_shared rest

/-- The input readings after `prev` with a crossing point inserted before
every reading whose zone differs from its predecessor's zone. -/
def with_crossings (prev : ℚ × ℚ) : List (ℚ × ℚ) → List (ℚ × ℚ)
  | [] => []
  | p :: rest =>
    if glucose_zone p.2 = glucose_zone prev.2 then p :: with_crossings p rest
    else crossing_point prev.1 p.1 prev.2 p.2 :: p :: with_crossings p rest

/-- Tests that an optional point carries one of the two threshold values,
i.e. is an inserted crossing point. -/
def boundary_pt : Option (ℚ × ℚ) → Bool
  | some p => p.2 == GLUCOSE_MIN || p.2 == GLUCOSE_MAX
  | none => false

/-- Tests that every pair of consecutive segments shares a point: the last
point of the earlier equals the first point of the later, and that shared
point carries a threshold value (it is an inserted crossing point). -/
def chained : List Segment → Bool
  | s :: t :: rest =>
      (s.pts.getLast? == t.pts.head?) && boundary_pt t.pts.head? && chained (t :: rest)
  | _ => true

lemma drop_shared_cons (s : Segment) (rest : List Segment) :
    drop_shared (s :: rest) = s.pts.tail ++ drop_shared rest := by
  simp [drop_shared]

lemma drop_shared_loop (rest : List (ℚ × ℚ)) :
    ∀ (prev : ℚ × ℚ) (seg_pts : List (ℚ × ℚ)), seg_pts ≠ [] →
      drop_shared (build_segments_loop prev seg_pts (glucose_zone prev.2) rest) =
        seg_pts.tail ++ with_crossings prev rest := by
  induction rest with
  | nil =>
    intro prev seg_pts _
    simp [build_segments_loop, drop_shared, with_crossings]
  | cons p rest ih =>
    intro prev seg_pts hne
    simp only [build_segments_loop, with_crossings]
    by_cases hz : glucose_zone p.2 = glucose_zone prev.2
    · rw [if_pos hz, if_pos hz, ← hz, ih p (seg_pts ++ [p]) (by simp)]
      match seg_pts, hne with
      | q :: l, _ => simp
    · rw [if_neg hz, if_neg hz]
      rw [drop_shared_cons, ih p _ (by simp)]
      match seg_pts, hne with
      | q :: l, _ => simp

lemma join_segments_loop (rest : List (ℚ × ℚ)) :
    ∀ (prev : ℚ × ℚ) (seg_pts : List (ℚ × ℚ)), seg_pts ≠ [] →
      join_segments (build_segments_loop prev seg_pts (glucose_zone prev.2) rest) =
        seg_pts ++ with_crossings prev rest := by
  induction rest with
  | nil =>
    intro prev seg_pts _
    simp [build_segments_loop, join_segments, drop_shared, with_crossings]
  | cons p rest ih =>
    intro prev seg_pts hne
    simp only [build_segments_loop, with_crossings]
    by_cases hz : glucose_zone p.2 = glucose_zone prev.2
    · rw [if_pos hz, if_pos hz, ← hz, ih p (seg_pts ++ [p]) (by simp)]
      simp
    · rw [if_neg hz, if_neg hz]
      show (⟨seg_pts ++ [_], _⟩ : Segment).pts ++ drop_shared _ = _
      rw [drop_shared_loop rest p _ (by simp)]
      simp

lemma with_crossings_ne_nil (p : ℚ × ℚ) (rest : List (ℚ × ℚ)) (prev : ℚ × ℚ) :
    with_crossings prev (p :: rest) ≠ [] := by
  simp only [with_crossings]
  split <;> simp

lemma with_crossings_getLast (rest : List (ℚ × ℚ)) :
    ∀ prev : ℚ × ℚ,
      (prev :: with_crossings prev rest).getLast? = (prev :: rest).getLast? := by
  induction rest with
  | nil => intro prev; rfl
  | cons p rest ih =>
    intro prev
    simp only [with_crossings]
    rw [List.getLast?_cons_cons (l := rest)]
    split
    · rw [List.getLast?_cons_cons, ← ih p]
    · rw [List.getLast?_cons_cons, List.getLast?_cons_cons, ← ih p]

lemma build_segments_loop_head (rest : List (ℚ × ℚ)) :
    ∀ (prev : ℚ × ℚ) (seg_pts : List (ℚ × ℚ)) (z : Zone), seg_pts ≠ [] →
      ∃ s S, build_segments_loop prev seg_pts z rest = s :: S ∧
        s.pts.head? = seg_pts.head? := by
  induction rest with
  | nil => intro prev seg_pts z _; exact ⟨⟨seg_pts, z⟩, [], rfl, rfl⟩
  | cons p rest ih =>
    intro prev seg_pts z hne
    simp only [build_segments_loop]
    by_cases hz : glucose_zone p.2 = z
    · rw [if_pos hz]
      obtain ⟨s, S, heq, hhead⟩ := ih p (seg_pts ++ [p]) z (by simp)
      refine ⟨s, S, heq, hhead.trans ?_⟩
      match seg_pts, hne with
      | q :: l, _ => rfl
    · rw [if_neg hz]
      refine ⟨_, _, rfl, ?_⟩
      match seg_pts, hne with
      | q :: l, _ => rfl

lemma crossing_boundary_cases (v0 v1 : ℚ) :
    crossing_boundary v0 v1 = GLUCOSE_MIN ∨ crossing_boundary v0 v1 = GLUCOSE_MAX := by
  unfold crossing_boundary
  split
  · exact Or.inl rfl
  · exact Or.inr rfl

lemma chained_loop (rest : List (ℚ × ℚ)) :
    ∀ (prev : ℚ × ℚ) (seg_pts : List (ℚ × ℚ)) (z : Zone),
      chained (build_segments_loop prev seg_pts z rest) = true := by
  induction rest with
  | nil => intro prev seg_pts z; rfl
  | cons p rest ih =>
    intro prev seg_pts z
    simp only [build_segments_loop]
    by_cases hz : glucose_zone p.2 = z
    · rw [if_pos hz]
      exact ih p (seg_pts ++ [p]) z
    · rw [if_neg hz]
      obtain ⟨s, S, heq, hhead⟩ :=
        build_segments_loop_head rest p [crossing_point prev.1 p.1 prev.2 p.2, p]
          (glucose_zone p.2) (by simp)
      rw [heq, chained]
      have h1 : (seg_pts ++ [crossing_point prev.1 p.1 prev.2 p.2]).getLast? =
          some (crossing_point prev.1 p.1 prev.2 p.2) := by
        simp
      have h2 : s.pts.head? = some (crossing_point prev.1 p.1 prev.2 p.2) := hhead
      have h3 : boundary_pt s.pts.head? = true := by
        rw [h2]
        show (_ == GLUCOSE_MIN || _ == GLUCOSE_MAX) = true
        rcases crossing_boundary_cases prev.2 p.2 with hb | hb <;>
          simp [crossing_point, hb]
      have h4 : chained (s :: S) = true := heq ▸ ih p _ (glucose_zone p.2)
      have h5 : boundary_pt (some (crossing_point prev.1 p.1 prev.2 p.2)) = true := by
        rw [← h2]; exact h3
      simp [h1, h2, h4, h5]

/-- Claim C2: for every non-empty reading list, consecutive segments of
`build_segments` share a point — the last point of the earlier segment is
the first point of the later one and carries a threshold value (it is the
inserted crossing point) — and concatenating all segments' point lists with
those shared boundary points deduplicated yields a polyline whose first
point is the first reading and whose last point is the last reading. -/
theorem segments_chain (readings : List (ℚ × ℚ)) (h : readings ≠ []) :
    chained (build_segments readings) = true ∧
    (join_segments (build_segments readings)).head? = readings.head? ∧
    (join_segments (build_segments readings)).getLast? = readings.getLast? := by
  match readings, h with
  | r :: rest, _ =>
    refine ⟨chained_loop rest r [r] (glucose_zone r.2), ?_, ?_⟩
    · rw [show build_segments (r :: rest) = build_segments_loop r [r] (glucose_zone r.2) rest
        from rfl]
      rw [join_segments_loop rest r [r] (by simp)]
      rfl
    · rw [show build_segments (r :: rest) = build_segments_loop r [r] (glucose_zone r.2) rest
        from rfl]
      rw [join_segments_loop rest r [r] (by simp)]
      rw [List.singleton_append, with_crossings_getLast rest r]

/-- Witness for C2: the chain and polyline-reconstruction properties hold on
the spec's four-point example. -/
theorem segments_chain_witness :
    ([((0 : ℚ), (3 : ℚ)), (1, 5), (2, 12), (3, 7)] ≠ []) ∧
    (chained (build_segments [((0 : ℚ), (3 : ℚ)), (1, 5), (2, 12), (3, 7)]) = true ∧
      (join_segments (build_segments [((0 : ℚ), (3 : ℚ)), (1, 5), (2, 12), (3, 7)])).head? =
        [((0 : ℚ), (3 : ℚ)), (1, 5), (2, 12), (3, 7)].head? ∧
      (join_segments (build_segments [((0 : ℚ), (3 : ℚ)), (1, 5), (2, 12), (3, 7)])).getLast? =
        [((0 : ℚ), (3 : ℚ)), (1, 5), (2, 12), (3, 7)].getLast?) :=
  ⟨by with_unfolding_all decide,
    segments_chain [((0 : ℚ), (3 : ℚ)), (1, 5), (2, 12), (3, 7)]
      (by with_unfolding_all decide)⟩

lemma zone_below_iff (v : ℚ) : glucose_zone v = .below ↔ v < GLUCOSE_MIN := by
  unfold glucose_zone
  split_ifs with h1 h2
  · exact iff_of_true rfl h1
  · exact iff_of_false (by decide) h1
  · exact iff_of_false (by decide) h1

lemma zone_above_iff (v : ℚ) : glucose_zone v = .above ↔ GLUCOSE_MAX < v := by
  unfold glucose_zone
  split_ifs with h1 h2
  · have hlt : GLUCOSE_MIN < GLUCOSE_MAX := by with_unfolding_all decide
    exact iff_of_false (by decide) (not_lt.mpr (h1.trans hlt).le)
  · exact iff_of_true rfl h2
  · exact iff_of_false (by decide) h2

lemma zone_in_range_iff (v : ℚ) :
    glucose_zone v = .in_range ↔ GLUCOSE_MIN ≤ v ∧ v ≤ GLUCOSE_MAX := by
  unfold glucose_zone
  split_ifs with h1 h2
  · exact iff_of_false (by decide) (fun hc => (not_le.mpr h1) hc.1)
  · exact iff_of_false (by decide) (fun hc => (not_le.mpr h2) hc.2)
  · exact iff_of_true rfl ⟨not_lt.mp h1, not_lt.mp h2⟩

lemma div_bounds {a b : ℚ} (hd : 0 < b) (h0 : 0 ≤ a) (h1 : a ≤ b) :
    0 ≤ a / b ∧ a / b ≤ 1 :=
  ⟨div_nonneg h0 hd.le, (div_le_one hd).mpr h1⟩

lemma crossing_ratio_bounds (v0 v1 : ℚ) (hz : glucose_zone v0 ≠ glucose_zone v1) :
    0 ≤ crossing_ratio v0 v1 ∧ crossing_ratio v0 v1 ≤ 1 := by
  have hv : v1 ≠ v0 := fun he => hz (he ▸ rfl)
  rw [crossing_ratio, if_pos hv]
  by_cases h0 : v0 < GLUCOSE_MIN <;> by_cases h1 : v1 < GLUCOSE_MIN
  · exact absurd ((zone_below_iff v0).mpr h0
      |>.trans ((zone_below_iff v1).mpr h1).symm) hz
  · have hb : crossing_boundary v0 v1 = GLUCOSE_MIN := by
      simp [crossing_boundary, h0, h1]
    rw [hb]
    exact div_bounds (by linarith [not_lt.mp h1]) (by linarith) (by linarith [not_lt.mp h1])
  · have hb : crossing_boundary v0 v1 = GLUCOSE_MIN := by
      simp [crossing_boundary, h0, h1]
    rw [hb, ← neg_div_neg_eq]
    refine div_bounds ?_ ?_ ?_
    · linarith [not_lt.mp h0]
    · linarith [not_lt.mp h0]
    · linarith
  · have hb : crossing_boundary v0 v1 = GLUCOSE_MAX := by
      simp [crossing_boundary, h0, h1]
    rw [hb]
    by_cases m0 : v0 > GLUCOSE_MAX <;> by_cases m1 : v1 > GLUCOSE_MAX
    · exact absurd ((zone_above_iff v0).mpr m0
        |>.trans ((zone_above_iff v1).mpr m1).symm) hz
    · rw [← neg_div_neg_eq]
      refine div_bounds ?_ ?_ ?_
      · linarith [not_lt.mp m1]
      · linarith
      · linarith [not_lt.mp m1]
    · refine div_bounds ?_ ?_ ?_
      · linarith [not_lt.mp m0]
      · linarith [not_lt.mp m0]
      · linarith
    · have e0 : glucose_zone v0 = .in_range :=
        (zone_in_range_iff v0).mpr ⟨not_lt.mp h0, not_lt.mp m0⟩
      have e1 : glucose_zone v1 = .in_range :=
        (zone_in_range_iff v1).mpr ⟨not_lt.mp h1, not_lt.mp m1⟩
      exact absurd (e0.trans e1.symm) hz

/-- Claim C10: when `t0 ≤ t1` and the two readings' zones differ, the
interpolation ratio of `crossing_point` lies in `[0, 1]`, the interpolated
timestamp lies in `[t0, t1]`, and the returned value is exactly
`GLUCOSE_MIN` or `GLUCOSE_MAX`. -/
theorem crossing_in_bounds (t0 t1 v0 v1 : ℚ) (ht : t0 ≤ t1)
    (hz : glucose_zone v0 ≠ glucose_zone v1) :
    (0 ≤ crossing_ratio v0 v1 ∧ crossing_ratio v0 v1 ≤ 1) ∧
    t0 ≤ (crossing_point t0 t1 v0 v1).1 ∧ (crossing_point t0 t1 v0 v1).1 ≤ t1 ∧
    ((crossing_point t0 t1 v0 v1).2 = GLUCOSE_MIN ∨
      (crossing_point t0 t1 v0 v1).2 = GLUCOSE_MAX) := by
  obtain ⟨hr0, hr1⟩ := crossing_ratio_bounds v0 v1 hz
  refine ⟨⟨hr0, hr1⟩, ?_, ?_, crossing_boundary_cases v0 v1⟩
  · show t0 ≤ t0 + (t1 - t0) * crossing_ratio v0 v1
    nlinarith
  · show t0 + (t1 - t0) * crossing_ratio v0 v1 ≤ t1
    nlinarith

/-- Witness for C10: the crossing between `(0, 3)` and `(1, 5)` has ratio
in `[0, 1]`, timestamp in `[0, 1]`, and a threshold value. -/
theorem crossing_in_bounds_witness :
    ((0 : ℚ) ≤ 1 ∧ glucose_zone 3 ≠ glucose_zone 5) ∧
    ((0 ≤ crossing_ratio 3 5 ∧ crossing_ratio 3 5 ≤ 1) ∧
      (0 : ℚ) ≤ (crossing_point 0 1 3 5).1 ∧ (crossing_point 0 1 3 5).1 ≤ 1 ∧
      ((crossing_point 0 1 3 5).2 = GLUCOSE_MIN ∨
        (crossing_point 0 1 3 5).2 = GLUCOSE_MAX)) :=
  ⟨⟨by with_unfolding_all decide, by with_unfolding_all decide⟩,
    crossing_in_bounds 0 1 3 5 (by with_unfolding_all decide)
      (by with_unfolding_all decide)⟩

/-!
The percentages of `_glucose_stats` are computed in IEEE-754 binary64
("float64") arithmetic: the count is divided by `n` and multiplied by 100
as doubles, and only then rounded by Python's `round`.  The following
definitions model that arithmetic exactly: `fl` rounds a rational to the
nearest binary64 value (round to nearest, ties to even), assuming the
magnitude stays inside the normal binary64 range (binary exponent within
±1100 of 0), which holds for every value arising here.
-/

/-- Scales a positive rational into `[1, 2)` by repeated doubling/halving,
returning the scaled mantissa value and the binary exponent.  The fuel
bound 1100 (used by `flPos`) covers the whole binary64 normal range. -/
def flScale : ℕ → ℚ → ℚ × ℤ
  | 0, q => (q, 0)
  | f + 1, q =>
    if q < 1 then
      let p := flScale f (q * 2)
      (p.1, p.2 - 1)
    else if 2 ≤ q then
      let p := flScale f (q / 2)
      (p.1, p.2 + 1)
    else (q, 0)

/-- The rational `2 ^ e` for an integer exponent `e`. -/
def pow2 (e : ℤ) : ℚ :=
  if 0 ≤ e then ((2 ^ e.toNat : ℕ) : ℚ) else 1 / ((2 ^ (-e).toNat : ℕ) : ℚ)

/-- Rounds a positive rational to the nearest binary64 value: the mantissa
`q / 2 ^ e ∈ [1, 2)` is scaled to 53 bits and rounded half-to-even. -/
def flPos (q : ℚ) : ℚ :=
  ((pyRound ((flScale 1100 q).1 * pow2 52) : ℤ) : ℚ) * pow2 ((flScale 1100 q).2 - 52)

/-- Rounds a rational to the nearest binary64 value (round to nearest, ties
to even), for magnitudes in the normal range. -/
def fl (q : ℚ) : ℚ :=
  if q = 0 then 0
  else if q < 0 then -flPos (-q) else flPos q

/-- The record returned by `_glucose_stats`: rounded percentages
`tir`/`tar`/`tbr` and unrounded `mean`/`min`/`max`. -/
structure GlucoseStats where
  tir : ℤ
  tar : ℤ
  tbr : ℤ
  mean : ℚ
  min : ℚ
  max : ℚ
deriving DecidableEq

/-- Minimum of a value list (pandas `Series.min` on a non-empty series);
`0` on the empty list, which `_glucose_stats` never reaches. -/
def listMin : List ℚ → ℚ
  | [] => 0
  | v :: vs => vs.foldl Min.min v

/-- Maximum of a value list (pandas `Series.max` on a non-empty series);
`0` on the empty list, which `_glucose_stats` never reaches. -/
def listMax : List ℚ → ℚ
  | [] => 0
  | v :: vs => vs.foldl Max.max v

/-- Embedding of `_glucose_stats`: `none` on an empty frame, otherwise
`tir = round(between(MIN, MAX).sum() / n * 100)` and
`tar = round((> MAX).sum() / n * 100)` with the division and the
multiplication evaluated in binary64 (`fl`) exactly as the source computes
them, `tbr = 100 - tir - tar`, and exact mean/min/max of the values. -/
def glucose_stats (vals : List ℚ) : Option GlucoseStats :=
  if vals = [] then none
  else
    let n : ℚ := (vals.length : ℚ)
    let tir : ℤ :=
      pyRound (fl (fl ((vals.countP fun v => decide (GLUCOSE_MIN ≤ v ∧ v ≤ GLUCOSE_MAX)) / n)
        * 100))
    let tar : ℤ := pyRound (fl (fl ((vals.countP fun v => decide (v > GLUCOSE_MAX)) / n) * 100))
    some ⟨tir, tar, 100 - tir - tar, vals.sum / n, listMin vals, listMax vals⟩

lemma countP_in_range (vals : List ℚ) :
    (vals.countP fun v => decide (GLUCOSE_MIN ≤ v ∧ v ≤ GLUCOSE_MAX)) =
      vals.countP fun v => glucose_zone v == Zone.in_range := by
  induction vals with
  | nil => rfl
  | cons v vs ih =>
    simp only [List.countP_cons, ih]
    congr 1
    by_cases h : GLUCOSE_MIN ≤ v ∧ v ≤ GLUCOSE_MAX
    · simp [h, (zone_in_range_iff v).mpr h]
    · have h2 : ¬ glucose_zone v = .in_range := fun hc => h ((zone_in_range_iff v).mp hc)
      simp [h, h2]

lemma countP_above (vals : List ℚ) :
    (vals.countP fun v => decide (v > GLUCOSE_MAX)) =
      vals.countP fun v => glucose_zone v == Zone.above := by
  induction vals with
  | nil => rfl
  | cons v vs ih =>
    simp only [List.countP_cons, ih]
    congr 1
    by_cases h : GLUCOSE_MAX < v
    · simp [h, (zone_above_iff v).mpr h]
    · have h2 : ¬ glucose_zone v = .above := fun hc => h ((zone_above_iff v).mp hc)
      simp [h, h2]

lemma foldl_min_mem (l : List ℚ) : ∀ a : ℚ, l.foldl Min.min a = a ∨ l.foldl Min.min a ∈ l := by
  induction l with
  | nil => intro a; exact Or.inl rfl
  | cons w l ih =>
    intro a
    rcases ih (Min.min a w) with h | h
    · rcases min_choice a w with hc | hc
      · exact Or.inl (by rw [List.foldl_cons, h, hc])
      · exact Or.inr (by rw [List.foldl_cons, h, hc]; exact List.mem_cons_self w l)
    · exact Or.inr (List.mem_cons_of_mem w h)

lemma foldl_min_le (l : List ℚ) :
    ∀ a : ℚ, l.foldl Min.min a ≤ a ∧ ∀ v ∈ l, l.foldl Min.min a ≤ v := by
  induction l with
  | nil => intro a; exact ⟨le_refl a, by simp⟩
  | cons w l ih =>
    intro a
    obtain ⟨h1, h2⟩ := ih (Min.min a w)
    rw [List.foldl_cons]
    refine ⟨h1.trans (min_le_left a w), fun v hv => ?_⟩
    rcases List.mem_cons.mp hv with hv | hv
    · exact hv ▸ h1.trans (min_le_right a w)
    · exact h2 v hv

lemma foldl_max_mem (l : List ℚ) : ∀ a : ℚ, l.foldl Max.max a = a ∨ l.foldl Max.max a ∈ l := by
  induction l with
  | nil => intro a; exact Or.inl rfl
  | cons w l ih =>
    intro a
    rcases ih (Max.max a w) with h | h
    · rcases max_choice a w with hc | hc
      · exact Or.inl (by rw [List.foldl_cons, h, hc])
      · exact Or.inr (by rw [List.foldl_cons, h, hc]; exact List.mem_cons_self w l)
    · exact Or.inr (List.mem_cons_of_mem w h)

lemma foldl_max_le (l : List ℚ) :
    ∀ a : ℚ, a ≤ l.foldl Max.max a ∧ ∀ v ∈ l, v ≤ l.foldl Max.max a := by
  induction l with
  | nil => intro a; exact ⟨le_refl a, by simp⟩
  | cons w l ih =>
    intro a
    obtain ⟨h1, h2⟩ := ih (Max.max a w)
    rw [List.foldl_cons]
    refine ⟨(le_max_left a w).trans h1, fun v hv => ?_⟩
    rcases List.mem_cons.mp hv with hv | hv
    · exact hv ▸ (le_max_right a w).trans h1
    · exact h2 v hv

lemma listMin_spec (vals : List ℚ) (h : vals ≠ []) :
    listMin vals ∈ vals ∧ ∀ v ∈ vals, listMin vals ≤ v := by
  match vals, h with
  | w :: l, _ =>
    constructor
    · show List.foldl Min.min w l ∈ w :: l
      rcases foldl_min_mem l w with hc | hc
      · rw [hc]; exact List.mem_cons_self w l
      · exact List.mem_cons_of_mem w hc
    · intro v hv
      show List.foldl Min.min w l ≤ v
      obtain ⟨h1, h2⟩ := foldl_min_le l w
      rcases List.mem_cons.mp hv with hv | hv
      · exact hv ▸ h1
      · exact h2 v hv

lemma listMax_spec (vals : List ℚ) (h : vals ≠ []) :
    listMax vals ∈ vals ∧ ∀ v ∈ vals, v ≤ listMax vals := by
  match vals, h with
  | w :: l, _ =>
    constructor
    · show List.foldl Max.max w l ∈ w :: l
      rcases foldl_max_mem l w with hc | hc
      · rw [hc]; exact List.mem_cons_self w l
      · exact List.mem_cons_of_mem w hc
    · intro v hv
      show v ≤ List.foldl Max.max w l
      obtain ⟨h1, h2⟩ := foldl_max_le l w
      rcases List.mem_cons.mp hv with hv | hv
      · exact hv ▸ h1
      · exact h2 v hv

/-- Claim C4, amended: `glucose_stats` returns `none` on an empty list
(never zero-filled values), and on a non-empty list the percentages are
Python's `round` applied to the binary64 evaluation of
`count / n * 100` — `round(fl(fl(count / n) * 100))` with counts per
`glucose_zone` — which can differ by one from `round` of the exact
rational `100 * count / n` when the binary64 double rounding moves a tie
(the counterexample below); mean/min/max are the unrounded arithmetic
mean, a minimum and a maximum of the values, as claimed. -/
theorem glucose_stats_spec :
    glucose_stats [] = none ∧
    (∀ vals : List ℚ, vals ≠ [] → (glucose_stats vals).isSome = true) ∧
    (∀ (vals : List ℚ) (s : GlucoseStats), glucose_stats vals = some s →
      s.tir = pyRound (fl (fl
        ((vals.countP fun v => glucose_zone v == Zone.in_range) / (vals.length : ℚ)) * 100)) ∧
      s.tar = pyRound (fl (fl
        ((vals.countP fun v => glucose_zone v == Zone.above) / (vals.length : ℚ)) * 100)) ∧
      s.mean = vals.sum / vals.length ∧
      (s.min ∈ vals ∧ ∀ v ∈ vals, s.min ≤ v) ∧
      (s.max ∈ vals ∧ ∀ v ∈ vals, v ≤ s.max)) := by
  refine ⟨rfl, fun vals h => ?_, fun vals s h => ?_⟩
  · rw [glucose_stats, if_neg h]
    rfl
  · obtain ⟨tir, tar, tbr, mean, mn, mx⟩ := s
    rw [glucose_stats] at h
    split_ifs at h with hne
    injection h with h
    injection h with h1 h2 h3 h4 h5 h6
    subst h1 h2 h3 h4 h5 h6
    refine ⟨?_, ?_, rfl, listMin_spec vals hne, listMax_spec vals hne⟩
    · simp only []
      rw [countP_in_range]
    · simp only []
      rw [countP_above]

/-- Witness for C4: on the spec's example `[3, 5, 12, 7]` the stats are
`tir = 50`, `tar = 25`, `tbr = 25`, `mean = 27/4`, `min = 3`, `max = 12`
(both binary64 products are exact here). -/
theorem glucose_stats_spec_witness :
    (glucose_stats [3, 5, 12, 7] = some ⟨50, 25, 25, 27 / 4, 3, 12⟩ ∧
      ([3, 5, 12, 7] : List ℚ) ≠ []) ∧
    (glucose_stats ([3, 5, 12, 7] : List ℚ)).isSome = true ∧
    (GlucoseStats.mk 50 25 25 (27 / 4) 3 12).tir = pyRound (fl (fl
      ((([3, 5, 12, 7] : List ℚ).countP fun v => glucose_zone v == Zone.in_range) /
        (([3, 5, 12, 7] : List ℚ).length : ℚ)) * 100)) ∧
    (GlucoseStats.mk 50 25 25 (27 / 4) 3 12).tar = pyRound (fl (fl
      ((([3, 5, 12, 7] : List ℚ).countP fun v => glucose_zone v == Zone.above) /
        (([3, 5, 12, 7] : List ℚ).length : ℚ)) * 100)) ∧
    (GlucoseStats.mk 50 25 25 (27 / 4) 3 12).mean =
      ([3, 5, 12, 7] : List ℚ).sum / ([3, 5, 12, 7] : List ℚ).length ∧
    ((GlucoseStats.mk 50 25 25 (27 / 4) 3 12).min ∈ ([3, 5, 12, 7] : List ℚ) ∧
      ∀ v ∈ ([3, 5, 12, 7] : List ℚ), (GlucoseStats.mk 50 25 25 (27 / 4) 3 12).min ≤ v) ∧
    ((GlucoseStats.mk 50 25 25 (27 / 4) 3 12).max ∈ ([3, 5, 12, 7] : List ℚ) ∧
      ∀ v ∈ ([3, 5, 12, 7] : List ℚ), v ≤ (GlucoseStats.mk 50 25 25 (27 / 4) 3 12).max) :=
  ⟨⟨by with_unfolding_all decide, by with_unfolding_all decide⟩,
    glucose_stats_spec.2.1 [3, 5, 12, 7] (by with_unfolding_all decide),
    glucose_stats_spec.2.2 [3, 5, 12, 7] ⟨50, 25, 25, 27 / 4, 3, 12⟩
      (by with_unfolding_all decide)⟩

set_option maxRecDepth 100000 in
/-- Counterexample to C4 as first stated: on 91 in-range plus 109
above-range readings, `_glucose_stats` returns `tar = 55` — the binary64
evaluation of `109 / 200 * 100` is `54.50000000000001`, which rounds up —
while the claimed exact formula `round(100 * count(Above) / n)` gives
`round 54.5 = 54` under Python's half-to-even rounding. -/
theorem glucose_stats_exact_formula_ce :
    (glucose_stats (List.replicate 91 (5 : ℚ) ++ List.replicate 109 (12 : ℚ))).map
        GlucoseStats.tar = some 55 ∧
    pyRound (100 * ((List.replicate 91 (5 : ℚ) ++
        List.replicate 109 (12 : ℚ)).countP fun v => glucose_zone v == Zone.above) /
      ((List.replicate 91 (5 : ℚ) ++ List.replicate 109 (12 : ℚ)).length : ℚ)) = 54 := by
  with_unfolding_all decide

/-- Claim C6: the three percentages of `glucose_stats` always sum to exactly
100, because `tbr` is derived as the complement `100 - tir - tar`. -/
theorem pct_sum (vals : List ℚ) (s : GlucoseStats) (h : glucose_stats vals = some s) :
    s.tir + s.tar + s.tbr = 100 ∧ s.tbr = 100 - s.tir - s.tar := by
  obtain ⟨tir, tar, tbr, mean, mn, mx⟩ := s
  rw [glucose_stats] at h
  split_ifs at h
  injection h with h
  injection h with h1 h2 h3 h4 h5 h6
  subst h1 h2 h3 h4 h5 h6
  exact ⟨by simp only []; omega, rfl⟩

/-- Witness for C6: on the example `[3, 5, 12, 7]` the percentages
`50 + 25 + 25` sum to 100. -/
theorem pct_sum_witness :
    glucose_stats [3, 5, 12, 7] = some ⟨50, 25, 25, 27 / 4, 3, 12⟩ ∧
    ((GlucoseStats.mk 50 25 25 (27 / 4) 3 12).tir +
        (GlucoseStats.mk 50 25 25 (27 / 4) 3 12).tar +
        (GlucoseStats.mk 50 25 25 (27 / 4) 3 12).tbr = 100 ∧
      (GlucoseStats.mk 50 25 25 (27 / 4) 3 12).tbr =
        100 - (GlucoseStats.mk 50 25 25 (27 / 4) 3 12).tir -
          (GlucoseStats.mk 50 25 25 (27 / 4) 3 12).tar) :=
  ⟨by with_unfolding_all decide,
    pct_sum [3, 5, 12, 7] ⟨50, 25, 25, 27 / 4, 3, 12⟩ (by with_unfolding_all decide)⟩

/-- The insulin-delivery reason tag of a record (`"Болюс"` / `"Базал"`). -/
inductive InsulinReason where
  | bolus
  | basal
deriving DecidableEq

/-- Python's `int()` on an exact value: truncation toward zero. -/
def pyInt (q : ℚ) : ℤ :=
  if q < 0 then ⌈q⌉ else ⌊q⌋

/-- The numbers rendered by `_stats_section`: the glucose stats block, the
per-period insulin/carb totals and the per-day averages. -/
structure SectionOut where
  g : Option GlucoseStats
  bolus_total : ℤ
  basal_total : ℤ
  carbs_total : ℤ
  bolus_per_day : ℤ
  basal_per_day : ℤ
  carbs_per_day : ℤ
deriving DecidableEq

/-- Embedding of the numeric computations of `_stats_section`: sums bolus
and basal insulin by reason, truncates the carbohydrate total with `int()`,
and divides by `n_days` for the per-day averages.  Division by zero (a
`ZeroDivisionError` in the source) is modelled as `none`. -/
def stats_section (glc : List ℚ) (ins : List (ℚ × InsulinReason)) (crb : List ℚ)
    (n_days : ℤ) : Option SectionOut :=
  if ((n_days : ℚ)) = 0 then none
  else
    let bolus : ℚ := ((ins.filter fun r => r.2 == InsulinReason.bolus).map Prod.fst).sum
    let basal : ℚ := ((ins.filter fun r => r.2 == InsulinReason.basal).map Prod.fst).sum
    let carbs : ℤ := pyInt crb.sum
    some ⟨glucose_stats glc, pyRound bolus, pyRound basal, carbs,
      pyRound (bolus / (n_days : ℚ)), pyRound (basal / (n_days : ℚ)),
      pyRound ((carbs : ℚ) / (n_days : ℚ))⟩

/-- The day count passed to `_stats_section` at the call site
(line 578): `max(1, _days + 1)`. -/
def n_days_arg (days : ℤ) : ℤ := max 1 (days + 1)

/-- Claim C9: the day count handed to `_stats_section` is clamped to
`max(1, days + 1) ≥ 1`, so for every selected date range the divisor is at
least 1 and every per-day division in the aggregation is defined (the
embedding never returns the division-by-zero signal `none`). -/
theorem n_days_safe (days : ℤ) (glc : List ℚ) (ins : List (ℚ × InsulinReason))
    (crb : List ℚ) :
    1 ≤ n_days_arg days ∧
    (stats_section glc ins crb (n_days_arg days)).isSome = true := by
  have h1 : 1 ≤ n_days_arg days := le_max_left 1 (days + 1)
  refine ⟨h1, ?_⟩
  have h2 : ((n_days_arg days : ℤ) : ℚ) ≠ 0 := by
    have hcast : (1 : ℚ) ≤ ((n_days_arg days : ℤ) : ℚ) := by exact_mod_cast h1
    linarith
  rw [stats_section, if_neg h2]
  rfl

/-- The `tir` percentage of `_glucose_stats` (line 165) with the two
binary64 roundings of `count / n * 100` made explicit: the division and the
multiplication each round to the nearest double before `round` is applied. -/
def tir_f64 (vals : List ℚ) : ℤ :=
  pyRound (fl (fl ((vals.countP fun v => decide (GLUCOSE_MIN ≤ v ∧ v ≤ GLUCOSE_MAX)) /
    (vals.length : ℚ)) * 100))

/-- The `tar` percentage of `_glucose_stats` (line 166) with the two
binary64 roundings of `count / n * 100` made explicit. -/
def tar_f64 (vals : List ℚ) : ℤ :=
  pyRound (fl (fl ((vals.countP fun v => decide (v > GLUCOSE_MAX)) /
    (vals.length : ℚ)) * 100))

/-- The `tbr` percentage of `_glucose_stats` (line 168): the complement
`100 - tir - tar`. -/
def tbr_f64 (vals : List ℚ) : ℤ := 100 - tir_f64 vals - tar_f64 vals

set_option maxRecDepth 100000 in
/-- Claim C7: there is a non-empty reading list on which the
complement-derived `tbr` of `_glucose_stats` is negative, the two rounded
percentages summing above 100.  With 91 in-range and 109 above-range
readings, `109 / 200 * 100` evaluates in binary64 to
`54.50000000000001`, which rounds to 55 while `91 / 200 * 100` evaluates
exactly to `45.5` and rounds (half-to-even) to 46, so `tir + tar = 101`
and `tbr = -1`. -/
theorem tbr_f64_negative :
    tbr_f64 (List.replicate 91 (5 : ℚ) ++ List.replicate 109 (12 : ℚ)) < 0 ∧
    100 < tir_f64 (List.replicate 91 (5 : ℚ) ++ List.replicate 109 (12 : ℚ)) +
      tar_f64 (List.replicate 91 (5 : ℚ) ++ List.replicate 109 (12 : ℚ)) ∧
    List.replicate 91 (5 : ℚ) ++ List.replicate 109 (12 : ℚ) ≠ ([] : List ℚ) := by
  with_unfolding_all decide

/-- Witness for C5: the classification iffs evaluated at the value 3. -/
theorem glucose_zone_spec_witness :
    (glucose_zone 3 = .below ↔ (3 : ℚ) < GLUCOSE_MIN) ∧
    (glucose_zone 3 = .above ↔ (3 : ℚ) > GLUCOSE_MAX) ∧
    (glucose_zone 3 = .in_range ↔ GLUCOSE_MIN ≤ (3 : ℚ) ∧ (3 : ℚ) ≤ GLUCOSE_MAX) :=
  glucose_zone_spec.1 3

/-- Witness for C3: the crossing between `(0, 3)` and `(1, 5)` follows the
boundary-selection and interpolation formulas. -/
theorem crossing_point_spec_witness :
    ((crossing_point 0 1 3 5).2 =
      if ¬((3 : ℚ) < GLUCOSE_MIN ↔ (5 : ℚ) < GLUCOSE_MIN) then GLUCOSE_MIN
      else GLUCOSE_MAX) ∧
    (crossing_point 0 1 3 5).1 =
      0 + (1 - 0) *
        (if (5 : ℚ) ≠ 3 then ((crossing_point 0 1 3 5).2 - 3) / (5 - 3) else 1 / 2) :=
  crossing_point_spec 0 1 3 5

/-- Witness for C8: a single reading yields one one-point segment. -/
theorem build_segments_small_witness :
    build_segments [((0 : ℚ), (3 : ℚ))] =
      [⟨[((0 : ℚ), (3 : ℚ))], glucose_zone ((0 : ℚ), (3 : ℚ)).2⟩] :=
  build_segments_small.2 ((0 : ℚ), (3 : ℚ))

/-- Witness for C9: even for a negative raw day difference the clamped day
count is at least 1 and the aggregation is defined. -/
theorem n_days_safe_witness :
    1 ≤ n_days_arg (-5) ∧
    (stats_section [] [] [] (n_days_arg (-5))).isSome = true :=
  n_days_safe (-5) [] [] []
